import Mathlib

/-!
Verification of the nile call/invoke core against its specification.

The Python sources embedded here are:
- src/nile/core/call_or_invoke.py (call_or_invoke, _get_transaction_hash)
- src/nile/cli.py (_validate_network, invoke, call commands)
- tests/test_common.py (behavior of nile.common helpers)

Components of the repository that are referenced but whose source is not
available (nile/common.py, nile/deployments.py, nile/core/account.py,
nile/utils) are modelled from the specification; each such definition is
marked `Modelled from the spec:` in its doc comment.
-/

/- ## Basic string utilities (shallow embedding of Python string operations) -/

/-- Boolean test that `pat` is a leading segment of `l`, character by character. -/
def startsWithL : List Char → List Char → Bool
  | [], _ => true
  | _ :: _, [] => false
  | p :: ps, c :: cs => p == c && startsWithL ps cs

/-- Boolean test that `pat` occurs contiguously somewhere in the list,
scanning candidate starting positions left to right. -/
def containsL (pat : List Char) : List Char → Bool
  | [] => startsWithL pat []
  | c :: cs => startsWithL pat (c :: cs) || containsL pat cs

/-- Embeds the Python expression `needle in hay` on strings. -/
def strContains (hay needle : String) : Bool :=
  containsL (needle.toList) (hay.toList)

/- ## _get_transaction_hash (src/nile/core/call_or_invoke.py lines 76-78)

Python: `re.search(r"Transaction hash: (0x[\da-f]{1,64})", string)`, returning
the captured group of the leftmost match, or None. The pattern is a literal
prefix followed by a greedy bounded repetition of the character class
`[\da-f]` (where `\d` is any Unicode decimal digit), with nothing after it,
so the leftmost match takes the maximal run of at most 64 class characters at
the first position where at least one is present after the literal. -/

/-- Code point ranges (inclusive) of the Unicode general category Nd, the
decimal digits: this is the set of characters matched by Python `\d` in a
str pattern (no re.ASCII flag is passed in the source). One pair per
contiguous run of code points. -/
def ND_RANGES : List (Nat × Nat) :=
  [(48, 57), (1632, 1641), (1776, 1785), (1984, 1993), (2406, 2415), (2534, 2543), (2662, 2671),
   (2790, 2799), (2918, 2927), (3046, 3055), (3174, 3183), (3302, 3311), (3430, 3439), (3558,
   3567), (3664, 3673), (3792, 3801), (3872, 3881), (4160, 4169), (4240, 4249), (6112, 6121),
   (6160, 6169), (6470, 6479), (6608, 6617), (6784, 6793), (6800, 6809), (6992, 7001), (7088,
   7097), (7232, 7241), (7248, 7257), (42528, 42537), (43216, 43225), (43264, 43273), (43472,
   43481), (43504, 43513), (43600, 43609), (44016, 44025), (65296, 65305), (66720, 66729), (68912,
   68921), (69734, 69743), (69872, 69881), (69942, 69951), (70096, 70105), (70384, 70393), (70736,
   70745), (70864, 70873), (71248, 71257), (71360, 71369), (71472, 71481), (71904, 71913), (72016,
   72025), (72784, 72793), (73040, 73049), (73120, 73129), (92768, 92777), (92864, 92873), (93008,
   93017), (120782, 120831), (123200, 123209), (123632, 123641), (125264, 125273), (130032,
   130041)]

/-- Embeds Python `\d`: a character of Unicode general category Nd. -/
def isNdDigit (c : Char) : Bool :=
  ND_RANGES.any (fun p => decide (p.1 ≤ c.toNat) && decide (c.toNat ≤ p.2))

/-- Embeds the character class `[\da-f]` of the source regex: any Unicode
decimal digit (Python `\d`) or a lowercase letter between a and f. -/
def isHexClassChar (c : Char) : Bool :=
  isNdDigit c || (decide (97 ≤ c.toNat) && decide (c.toNat ≤ 102))

/-- Greedy repetition `{1,64}` engine: takes the longest leading run of
`[\da-f]` characters, capped at `n`. -/
def takeHexUpTo : Nat → List Char → List Char
  | 0, _ => []
  | _, [] => []
  | n + 1, c :: cs => if isHexClassChar c then c :: takeHexUpTo n cs else []

/-- Literal part of the regular expression, up to and including the `0x`
that opens the captured group. -/
def TX_HASH_PAT : List Char := String.toList ("Transaction hash: 0x")

/-- Attempts the full regex pattern anchored at the head of `l`; on success
returns the captured group (`0x` plus the greedy run of hex characters). -/
def matchHashAt (l : List Char) : Option (List Char) :=
  if startsWithL TX_HASH_PAT l then
    let digits := takeHexUpTo 64 (l.drop (TX_HASH_PAT.length))
    if digits = [] then none else some ('0' :: 'x' :: digits)
  else none

/-- Leftmost-match search: embeds `re.search`, trying each starting
position from the left. -/
def searchHash : List Char → Option (List Char)
  | [] => none
  | c :: cs =>
    match matchHashAt (c :: cs) with
    | some h => some h
    | none => searchHash cs

/-- Embeds `_get_transaction_hash` from src/nile/core/call_or_invoke.py:
the captured group of the leftmost regex match, or none. -/
def get_transaction_hash (s : String) : Option String :=
  match searchHash (s.toList) with
  | some cs => some (String.mk cs)
  | none => none

/- ## call_or_invoke (src/nile/core/call_or_invoke.py lines 12-73) -/

/-- Embeds the `query_flag` parameter domain (either simulate or estimate_fee). -/
inductive QueryFlag
  | simulate
  | estimateFee
deriving DecidableEq

/-- Embeds the `watch_mode` parameter domain (either track or debug). -/
inductive WatchMode
  | track
  | debug
deriving DecidableEq

/-- One record of the deployment registry: identifier, network, address, abi
reference (spec section 3, DeploymentRecord). -/
structure Record where
  identifier : String
  network : String
  address : String
  abiRef : String
deriving DecidableEq

/-- Modelled from the spec: `DeploymentRegistry.load(identifier, network)`
(nile/deployments.py is not under src/). Spec section 4.1: a finite sequence
produced by scanning stored records for matches, in append order; consumers
take the first element. -/
def load (registry : List Record) (ident network : String) : List (String × String) :=
  (registry.filter (fun r => (r.identifier == ident) && (r.network == network))).map
    (fun r => (r.address, r.abiRef))

/-- The `contract` argument of `call_or_invoke`: either an Account instance
(carrying `address` and `abi_path`) or an address/alias identifier resolved
through the registry. -/
inductive ContractRef
  | acct : String → String → ContractRef
  | ident : String → ContractRef

/-- External collaborators of `call_or_invoke`, passed as opaque capabilities:
`exec address abi` is the outcome of `execute_call` (nile/execute_call.py,
an opaque executor per spec section 4.4), and `statusFn h` is the outcome of
`status(normalize_number(h), network, watch_mode)` (nile/utils/status.py,
the StatusTracker). Both may fail, modelled by the error side of `Except`. -/
structure Env where
  exec : String → String → Except String String
  statusFn : Option String → Except String String

/-- The exact substring tested by the except-branch of `call_or_invoke`
(src/nile/core/call_or_invoke.py line 55). -/
def MAX_FEE_SUBSTR : String := "max_fee must be bigger than 0."

/-- The guided remediation message logged when the max-fee substring is found
(src/nile/core/call_or_invoke.py lines 56-61), one `logging.error` call. -/
def MAX_FEE_MSG : String :=
  "\n                \n😰 Whoops, looks like max fee is missing. Try with:\n\n                --max_fee=\x60MAX_FEE\x60\n                "

/-- Embeds the resolution step of `call_or_invoke` (lines 36-40): an Account
instance contributes its address and abi_path directly; any other reference
goes through `next(deployments.load(contract, network))`, whose failure on an
empty sequence propagates (StopIteration). -/
def resolveContract (registry : List Record) (network : String) :
    ContractRef → Except String (String × String)
  | ContractRef.acct address abiPath => Except.ok (address, abiPath)
  | ContractRef.ident name =>
    match load registry name network with
    | [] => Except.error ("StopIteration")
    | x :: _ => Except.ok x

/-- Embeds `call_or_invoke` (src/nile/core/call_or_invoke.py lines 12-73).
The returned pair is (Python return value as an Option, list of emitted log
lines, in order); the error side of `Except` is an exception propagating to
the caller. The dispatch step is `env.exec address abi`; a failure there is
intercepted: the max-fee substring produces one remediation log line and a
None return, any other failure logs the raw error and returns None. On
success, a non-call type with non-empty output logs the output, and when
`query_flag` is unset and `watch_mode` is set the extracted transaction hash
is handed to the status tracker and its result returned. -/
def call_or_invoke (env : Env) (registry : List Record) (contract : ContractRef)
    (ty network : String) (queryFlag : Option QueryFlag) (watchMode : Option WatchMode) :
    Except String (Option String × List String) :=
  match resolveContract registry network contract with
  | Except.error e => Except.error e
  | Except.ok (address, abi) =>
    match env.exec address abi with
    | Except.error err =>
      if strContains err MAX_FEE_SUBSTR then Except.ok (none, [MAX_FEE_MSG])
      else Except.ok (none, [err])
    | Except.ok output =>
      if ty ≠ "call" ∧ output ≠ "" then
        if queryFlag = none ∧ watchMode ≠ none then
          match env.statusFn (get_transaction_hash output) with
          | Except.error e => Except.error e
          | Except.ok r => Except.ok (some r, [output])
        else Except.ok (some output, [output])
      else Except.ok (some output, [])

/- ## CLI commands (src/nile/cli.py) -/

/-- Embeds Python `logging.info(result)` rendering of an optional value:
None prints as "None". -/
def pyShowOpt : Option String → String
  | none => "None"
  | some s => s

/-- Embeds the Python tuple-unpacking assignment `address, tx_hash = value`
applied to the return of `call_or_invoke`: unpacking None raises TypeError;
unpacking a string iterates its characters and requires exactly two. -/
def unpack2 : Option String → Except String (String × String)
  | none => Except.error ("TypeError: cannot unpack non-iterable NoneType object")
  | some s =>
    match s.toList with
    | [c1, c2] => Except.ok (String.mk [c1], String.mk [c2])
    | [] => Except.error ("ValueError: not enough values to unpack (expected 2, got 0)")
    | [_] => Except.error ("ValueError: not enough values to unpack (expected 2, got 1)")
    | _ => Except.error ("ValueError: too many values to unpack (expected 2)")

/-- Embeds the `call` command body (src/nile/cli.py lines 150-160): it logs
the result of `call_or_invoke` and ends. Result: complete list of log lines,
or a propagating exception. -/
def cli_call (env : Env) (registry : List Record) (contract_name network : String) :
    Except String (List String) :=
  match call_or_invoke env registry (ContractRef.ident contract_name) ("call") network none none with
  | Except.error e => Except.error e
  | Except.ok (res, logs) => Except.ok (logs ++ [pyShowOpt res])

/-- Embeds the `invoke` command body (src/nile/cli.py lines 134-147): it
unpacks the return of `call_or_invoke` as `address, tx_hash` and then logs
three lines. -/
def cli_invoke (env : Env) (registry : List Record) (contract_name network : String) :
    Except String (List String) :=
  match call_or_invoke env registry (ContractRef.ident contract_name) ("invoke") network none none with
  | Except.error e => Except.error e
  | Except.ok (res, logs) =>
    match unpack2 res with
    | Except.error e => Except.error e
    | Except.ok (address, txHash) =>
      Except.ok (logs ++ ["Invoke transaction was sent.",
        "Contract address: " ++ address, "Transaction hash: " ++ txHash])

/- ## _validate_network (src/nile/cli.py lines 24, 38-50) -/

/-- The accepted network tuple from src/nile/cli.py line 24. -/
def NETWORKS : List String := ["localhost", "goerli", "mainnet"]

/-- Embeds `_validate_network`: the returned value, or none for the raised
`click.BadParameter`. -/
def validate_network (value : String) : Option String :=
  if strContains value ("goerli") || strContains value ("testnet") then some ("goerli")
  else if strContains value ("localhost") || strContains value ("127.0.0.1") then some ("localhost")
  else if value ∈ NETWORKS then some value
  else none

/- ## Gateway and feeder response classification (nile/common.py, exercised
by src/tests/test_common.py) -/

/-- A gateway or feeder response body: an ordered dictionary with string keys
and string values, as built in tests/test_common.py. -/
structure GatewayResponse where
  entries : List (String × String)
deriving DecidableEq

/-- Ordered-dictionary key lookup, first binding wins. -/
def lookupEntry : List (String × String) → String → Option String
  | [], _ => none
  | (k, v) :: rest, key => if k = key then some v else lookupEntry rest key

/-- The `code` field of a response. -/
def respCode (r : GatewayResponse) : Option String := lookupEntry r.entries ("code")

/-- The `result` field of a response. -/
def respResult (r : GatewayResponse) : Option String := lookupEntry r.entries ("result")

/-- A single-quote character, as used by Python `repr` of dictionaries. -/
def SQ : String := "\x27"

/-- Python `repr` of one dictionary entry with string key and value. -/
def entryRepr (kv : String × String) : String :=
  SQ ++ kv.1 ++ SQ ++ ": " ++ SQ ++ kv.2 ++ SQ

/-- Python `repr` of the whole response dictionary, insertion order. -/
def pyDictRepr (r : GatewayResponse) : String :=
  "\x7b" ++ String.intercalate (", ") (r.entries.map entryRepr) ++ "\x7d"

/-- The success code compared against, `StarkErrorCode.TRANSACTION_RECEIVED.name`
(tests/test_common.py line 20). -/
def TRANSACTION_RECEIVED : String := "TRANSACTION_RECEIVED"

/-- Modelled from the spec: `submitTransaction` (nile/common.py
`get_gateway_response` is not under src/; its tests are in
src/tests/test_common.py). Spec section 4.2: if `response.code` equals the
defined success code the response is returned; otherwise the call fails,
carrying the full raw response body in the message, formatted as
`Transaction failed because:`, a newline, the raw body, and a period. -/
def get_gateway_response (r : GatewayResponse) : Except String GatewayResponse :=
  if respCode r = some TRANSACTION_RECEIVED then Except.ok r
  else Except.error ("Transaction failed because:\n" ++ pyDictRepr r ++ ".")

/-- Modelled from the spec: `queryFeeder` (nile/common.py
`get_feeder_response` is not under src/; its test is in
src/tests/test_common.py). Spec section 4.2: returns `response.result`
directly; any non-success code fails the same way as `submitTransaction`;
a success response without a result field fails the dictionary access. -/
def get_feeder_response (r : GatewayResponse) : Except String String :=
  if respCode r = some TRANSACTION_RECEIVED then
    match respResult r with
    | some v => Except.ok v
    | none => Except.error ("KeyError: " ++ SQ ++ "result" ++ SQ)
  else Except.error ("Transaction failed because:\n" ++ pyDictRepr r ++ ".")

/- ## stringify (nile/common.py, exercised by src/tests/test_common.py
lines 78-88) -/

mutual
/-- A Python value as handled by `stringify`: an int, a string, or a list. -/
inductive PyVal where
  | num : Int → PyVal
  | str : String → PyVal
  | lst : PyList → PyVal
/-- A Python list of such values. -/
inductive PyList where
  | nil : PyList
  | cons : PyVal → PyList → PyList
end

mutual
/-- Modelled from the spec: `stringify` (nile/common.py is not under src/;
its tests are in src/tests/test_common.py lines 78-88). Spec section 8: a
transform over nested ordered sequences that preserves nesting and converts
every scalar leaf to its string form. -/
def stringify : PyVal → PyVal
  | PyVal.num n => PyVal.str (toString n)
  | PyVal.str s => PyVal.str s
  | PyVal.lst xs => PyVal.lst (stringifyL xs)
/-- Elementwise `stringify` over a Python list. -/
def stringifyL : PyList → PyList
  | PyList.nil => PyList.nil
  | PyList.cons x xs => PyList.cons (stringify x) (stringifyL xs)
end

mutual
/-- Pure nesting structure of a Python value, scalars erased. -/
inductive Shape where
  | leafS : Shape
  | nodeS : ShapeL → Shape
/-- Nesting structure of a Python list. -/
inductive ShapeL where
  | nilS : ShapeL
  | consS : Shape → ShapeL → ShapeL
end

mutual
/-- The nesting structure of a value. -/
def shape : PyVal → Shape
  | PyVal.num _ => Shape.leafS
  | PyVal.str _ => Shape.leafS
  | PyVal.lst xs => Shape.nodeS (shapeL xs)
/-- The nesting structure of a list. -/
def shapeL : PyList → ShapeL
  | PyList.nil => ShapeL.nilS
  | PyList.cons x xs => ShapeL.consS (shape x) (shapeL xs)
end

/-- Python `str()` of a scalar; on a list (never reached by `stringify`
leaves) the placeholder "". -/
def pyStr : PyVal → String
  | PyVal.num n => toString n
  | PyVal.str s => s
  | PyVal.lst _ => ""

mutual
/-- The scalar leaves of a value, in left-to-right order. -/
def scalars : PyVal → List PyVal
  | PyVal.num n => [PyVal.num n]
  | PyVal.str s => [PyVal.str s]
  | PyVal.lst xs => scalarsL xs
/-- The scalar leaves of a list, in left-to-right order. -/
def scalarsL : PyList → List PyVal
  | PyList.nil => []
  | PyList.cons x xs => scalars x ++ scalarsL xs
end

/-- Builds a `PyList` from a Lean list, for writing test vectors. -/
def ofList : List PyVal → PyList
  | [] => PyList.nil
  | x :: xs => PyList.cons x (ofList xs)

/-- Builds a Python list value from a Lean list. -/
def pl (l : List PyVal) : PyVal := PyVal.lst (ofList l)

/- ## Account.send nonce sequencing (spec sections 4.3 and 5) -/

/-- Thread identifier for two logical `send()` invocations sharing one
Account instance. -/
inductive Tid
  | a
  | b
deriving DecidableEq

/-- Progress of one `send()` invocation: pc 0 = before the nonce fetch,
pc 1 = nonce fetched (holding the per-Account mutex), pc 2 = transaction
submitted (mutex released). `saved` is the nonce read at fetch time. -/
structure ThreadState where
  pc : Nat
  saved : Nat
deriving DecidableEq

/-- The shared state of two concurrent `send()` invocations on one Account:
the on-chain account nonce, the per-Account mutex, both thread states, and
the nonce carried by each submitted transaction, if any. -/
structure SendState where
  chain : Nat
  locked : Bool
  ta : ThreadState
  tb : ThreadState
  subA : Option Nat
  subB : Option Nat
deriving DecidableEq

/-- Starting state: on-chain nonce `n0`, mutex free, neither send started. -/
def sendStart (n0 : Nat) : SendState :=
  { chain := n0, locked := false, ta := ⟨0, 0⟩, tb := ⟨0, 0⟩, subA := none, subB := none }

/-- Modelled from the spec: one interleaving step of the `send()`
read-modify-submit sequence (nile/core/account.py is not under src/). Spec
section 4.3: when no explicit nonce is supplied, `send` fetches the current
on-chain nonce and then signs and submits; the fetch-and-submit sequence is
guarded by mutual exclusion scoped to the Account instance. The fetch step
acquires the mutex (a blocked thread leaves the state unchanged) and reads
the chain nonce; the submit step records the fetched nonce on the submitted
transaction, advances the on-chain nonce, and releases the mutex. -/
def sendStep (s : SendState) (who : Tid) : SendState :=
  match who with
  | Tid.a =>
    if s.ta.pc = 0 then
      if s.locked then s
      else { s with locked := true, ta := ⟨1, s.chain⟩ }
    else if s.ta.pc = 1 then
      { s with
          locked := false
          ta := ⟨2, s.ta.saved⟩
          subA := some s.ta.saved
          chain := s.chain + 1 }
    else s
  | Tid.b =>
    if s.tb.pc = 0 then
      if s.locked then s
      else { s with locked := true, tb := ⟨1, s.chain⟩ }
    else if s.tb.pc = 1 then
      { s with
          locked := false
          tb := ⟨2, s.tb.saved⟩
          subB := some s.tb.saved
          chain := s.chain + 1 }
    else s

/-- Runs an arbitrary interleaving schedule of the two sends. -/
def sendRun (n0 : Nat) (sched : List Tid) : SendState :=
  List.foldl sendStep (sendStart n0) sched

/-- Number of submitted transactions in a state. -/
def nsub (s : SendState) : Nat :=
  (if s.ta.pc = 2 then 1 else 0) + (if s.tb.pc = 2 then 1 else 0)

/-- Inductive invariant of the two-send interleaving machine: the chain nonce
counts submissions, the mutex is held exactly by a thread between fetch and
submit, a fetched nonce equals the current chain nonce, submissions record
the fetched nonce, a lone submission used nonce `n0`, and two submissions
used distinct nonces. -/
def SendInv (n0 : Nat) (s : SendState) : Prop :=
  s.chain = n0 + nsub s ∧
  (s.locked = true ↔ (s.ta.pc = 1 ∨ s.tb.pc = 1)) ∧
  ¬(s.ta.pc = 1 ∧ s.tb.pc = 1) ∧
  (s.ta.pc = 1 → s.ta.saved = s.chain) ∧
  (s.tb.pc = 1 → s.tb.saved = s.chain) ∧
  s.subA = (if s.ta.pc = 2 then some s.ta.saved else none) ∧
  s.subB = (if s.tb.pc = 2 then some s.tb.saved else none) ∧
  (s.ta.pc = 2 → s.tb.pc ≠ 2 → s.ta.saved = n0) ∧
  (s.tb.pc = 2 → s.ta.pc ≠ 2 → s.tb.saved = n0) ∧
  (s.ta.pc = 2 → s.tb.pc = 2 → s.ta.saved ≠ s.tb.saved)

/- ## Declarative specification of the transaction-hash pattern (the words of
the claim, to be compared with the embedded `re.search`) -/

/-- The head of the remainder, if any, is not a hex character. -/
def headNotHex : List Char → Prop
  | [] => True
  | c :: _ => isHexClassChar c = false

/-- Declarative statement that the regex pattern matches at the head of `l`
with captured digits `digits`: the literal text, then a non-empty run of at
most 64 lowercase hex characters, maximal unless 64 were taken. -/
def MatchSpec (l : List Char) (digits : List Char) : Prop :=
  ∃ t, l = TX_HASH_PAT ++ digits ++ t ∧ digits ≠ [] ∧ digits.length ≤ 64 ∧
    (∀ c ∈ digits, isHexClassChar c = true) ∧
    (digits.length = 64 ∨ headNotHex t)

/-- Declarative statement that the pattern matches at position `i` of `cs`. -/
def HashOccurrence (cs : List Char) (i : Nat) (digits : List Char) : Prop :=
  MatchSpec (cs.drop i) digits

/-- The character class described by the words of claim C10: an ASCII
lowercase hexadecimal digit, 0 to 9 or a to f. Strictly narrower than the
source regex class `[\da-f]`, whose `\d` matches every Unicode decimal
digit. -/
def isAsciiHexLower (c : Char) : Bool :=
  c.isDigit || (decide (97 ≤ c.toNat) && decide (c.toNat ≤ 102))

/- ## Concrete environments and registries for witnesses -/

/-- An environment whose executor always fails with the message "boom"
(a generic executor failure without the max-fee substring). -/
def envBoom : Env := ⟨fun _ _ => Except.error ("boom"), fun _ => Except.ok ("st")⟩

/-- An environment whose executor succeeds with a formatted output carrying a
transaction hash, and whose status tracker reports "tracked". -/
def envWatch : Env :=
  ⟨fun _ _ => Except.ok ("Transaction hash: 0xabc"), fun _ => Except.ok ("tracked")⟩

/-- A registry holding one deployment record for identifier "contract" on
network "goerli". -/
def regOne : List Record := [⟨"contract", "goerli", "0x1", "abi"⟩]

/- ## Helper lemmas -/

theorem startsWithL_iff (pat : List Char) : ∀ l, startsWithL pat l = true ↔ ∃ t, l = pat ++ t := by
  induction pat with
  | nil =>
    intro l
    simp [startsWithL]
  | cons p ps ih =>
    intro l
    cases l with
    | nil => simp [startsWithL]
    | cons c cs =>
      simp only [startsWithL, Bool.and_eq_true, beq_iff_eq, ih cs, List.cons_append,
        List.cons.injEq]
      constructor
      · rintro ⟨rfl, t, rfl⟩
        exact ⟨t, rfl, rfl⟩
      · rintro ⟨t, rfl, rfl⟩
        exact ⟨rfl, t, rfl⟩

theorem takeHexUpTo_spec : ∀ (n : Nat) (l : List Char),
    ∃ t, l = takeHexUpTo n l ++ t ∧ (∀ c ∈ takeHexUpTo n l, isHexClassChar c = true) ∧
      (takeHexUpTo n l).length ≤ n ∧ ((takeHexUpTo n l).length = n ∨ headNotHex t) := by
  intro n
  induction n with
  | zero =>
    intro l
    exact ⟨l, by simp [takeHexUpTo], by simp [takeHexUpTo], by simp [takeHexUpTo],
      Or.inl (by simp [takeHexUpTo])⟩
  | succ m ih =>
    intro l
    cases l with
    | nil => exact ⟨[], rfl, by simp [takeHexUpTo], by simp [takeHexUpTo], Or.inr trivial⟩
    | cons c cs =>
      by_cases hc : isHexClassChar c = true
      · obtain ⟨t, ht, hhex, hlen, hmax⟩ := ih cs
        refine ⟨t, ?_, ?_, ?_, ?_⟩
        · simp only [takeHexUpTo, hc, if_true, List.cons_append]
          exact congrArg (c :: ·) ht
        · intro d hd
          simp only [takeHexUpTo, hc, if_true, List.mem_cons] at hd
          rcases hd with rfl | hd
          · exact hc
          · exact hhex d hd
        · simp only [takeHexUpTo, hc, if_true, List.length_cons]
          omega
        · rcases hmax with h | h
          · left
            simp only [takeHexUpTo, hc, if_true, List.length_cons, h]
          · right
            exact h
      · refine ⟨c :: cs, ?_, ?_, ?_, Or.inr ?_⟩
        · simp [takeHexUpTo, hc]
        · simp [takeHexUpTo, hc]
        · simp [takeHexUpTo, hc]
        · simpa [headNotHex] using hc

theorem takeHexUpTo_unique : ∀ (d : List Char) (n : Nat) (t : List Char),
    (∀ c ∈ d, isHexClassChar c = true) → d.length ≤ n → (d.length = n ∨ headNotHex t) →
    takeHexUpTo n (d ++ t) = d := by
  intro d
  induction d with
  | nil =>
    intro n t _ _ hmax
    rcases hmax with h | h
    · simp only [List.length_nil] at h
      subst h
      simp [takeHexUpTo]
    · cases t with
      | nil => cases n <;> simp [takeHexUpTo]
      | cons c cs =>
        cases n with
        | zero => rfl
        | succ m =>
          simp only [headNotHex] at h
          simp [takeHexUpTo, h]
  | cons c d ih =>
    intro n t hhex hlen hmax
    have hc : isHexClassChar c = true := hhex c (by simp)
    cases n with
    | zero => simp at hlen
    | succ m =>
      simp only [List.cons_append, takeHexUpTo, hc, if_true, List.cons.injEq, true_and]
      refine ih m t (fun x hx => hhex x (by simp [hx])) ?_ ?_
      · simp only [List.length_cons] at hlen
        omega
      · rcases hmax with h | h
        · left
          simp only [List.length_cons] at h
          omega
        · right
          exact h

theorem matchHashAt_some_iff (l : List Char) (h : List Char) :
    matchHashAt l = some h ↔ ∃ digits, h = '0' :: 'x' :: digits ∧ MatchSpec l digits := by
  by_cases hs : startsWithL TX_HASH_PAT l = true
  · obtain ⟨rest, hrest⟩ := (startsWithL_iff _ _).mp hs
    subst hrest
    have hdrop : (TX_HASH_PAT ++ rest).drop (TX_HASH_PAT.length) = rest := List.drop_left _ _
    by_cases hd : takeHexUpTo 64 rest = []
    · have hnone : matchHashAt (TX_HASH_PAT ++ rest) = none := by
        simp [matchHashAt, hs, hdrop, hd]
      rw [hnone]
      constructor
      · intro hfalse
        exact Option.noConfusion hfalse
      · rintro ⟨digits, hh, t, hteq, hne, hlen, hhex, hmax⟩
        have hrt : rest = digits ++ t := List.append_cancel_left hteq
        have : takeHexUpTo 64 rest = digits := by
          rw [hrt]
          exact takeHexUpTo_unique digits 64 t hhex hlen hmax
        rw [hd] at this
        exact absurd this.symm hne
    · have hsome : matchHashAt (TX_HASH_PAT ++ rest) =
          some ('0' :: 'x' :: takeHexUpTo 64 rest) := by
        simp [matchHashAt, hs, hdrop, hd]
      rw [hsome]
      constructor
      · intro he
        obtain ⟨t, ht, hhex, hlen, hmax⟩ := takeHexUpTo_spec 64 rest
        injection he with he
        refine ⟨takeHexUpTo 64 rest, he.symm, t, ?_, hd, hlen, hhex, hmax⟩
        exact congrArg (TX_HASH_PAT ++ ·) ht
      · rintro ⟨digits, hh, t, hteq, hne, hlen, hhex, hmax⟩
        have hrt : rest = digits ++ t := List.append_cancel_left hteq
        have huniq : takeHexUpTo 64 rest = digits := by
          rw [hrt]
          exact takeHexUpTo_unique digits 64 t hhex hlen hmax
        rw [huniq, hh]
  · have hnone : matchHashAt l = none := by
      simp [matchHashAt, hs]
    rw [hnone]
    constructor
    · intro hfalse
      exact Option.noConfusion hfalse
    · rintro ⟨digits, hh, t, hteq, hne, hlen, hhex, hmax⟩
      exact absurd ((startsWithL_iff TX_HASH_PAT l).mpr ⟨digits ++ t, hteq⟩) hs

theorem matchHashAt_none_iff (l : List Char) :
    matchHashAt l = none ↔ ∀ digits, ¬ MatchSpec l digits := by
  constructor
  · intro hm digits hspec
    have hsome : matchHashAt l = some ('0' :: 'x' :: digits) :=
      (matchHashAt_some_iff l ('0' :: 'x' :: digits)).mpr ⟨digits, rfl, hspec⟩
    rw [hm] at hsome
    exact Option.noConfusion hsome
  · intro hall
    cases hm : matchHashAt l with
    | none => rfl
    | some hh =>
      obtain ⟨digits, _, hspec⟩ := (matchHashAt_some_iff l hh).mp hm
      exact absurd hspec (hall digits)

theorem searchHash_some : ∀ (cs : List Char) (h : List Char), searchHash cs = some h →
    ∃ i, matchHashAt (cs.drop i) = some h ∧ ∀ j, j < i → matchHashAt (cs.drop j) = none := by
  intro cs
  induction cs with
  | nil =>
    intro h hs
    simp [searchHash] at hs
  | cons c cs ih =>
    intro h hs
    simp only [searchHash] at hs
    cases hm : matchHashAt (c :: cs) with
    | some h0 =>
      rw [hm] at hs
      simp only [Option.some.injEq] at hs
      subst hs
      exact ⟨0, by simpa using hm, fun j hj => absurd hj (by omega)⟩
    | none =>
      rw [hm] at hs
      obtain ⟨i, hi, hj⟩ := ih h hs
      refine ⟨i + 1, by simpa using hi, ?_⟩
      intro j hj1
      cases j with
      | zero => simpa using hm
      | succ k => simpa using hj k (by omega)

theorem searchHash_none : ∀ (cs : List Char), searchHash cs = none →
    ∀ i, matchHashAt (cs.drop i) = none := by
  intro cs
  induction cs with
  | nil =>
    intro _ i
    rw [List.drop_nil]
    decide
  | cons c cs ih =>
    intro hs i
    simp only [searchHash] at hs
    cases hm : matchHashAt (c :: cs) with
    | some h0 =>
      rw [hm] at hs
      exact Option.noConfusion hs
    | none =>
      rw [hm] at hs
      cases i with
      | zero => simpa using hm
      | succ k => simpa using ih hs k

theorem sendStep_inv (n0 : Nat) (s : SendState) (w : Tid) (h : SendInv n0 s) :
    SendInv n0 (sendStep s w) := by
  obtain ⟨h1, h2, h3, h4, h5, h6, h7, h8, h9, h10⟩ := h
  cases w with
  | a =>
    simp only [sendStep]
    by_cases hp0 : s.ta.pc = 0
    · rw [if_pos hp0]
      by_cases hl : s.locked = true
      · rw [if_pos hl]
        exact ⟨h1, h2, h3, h4, h5, h6, h7, h8, h9, h10⟩
      · rw [if_neg hl]
        have hnb1 : ¬ s.tb.pc = 1 := fun hb => hl (h2.mpr (Or.inr hb))
        refine ⟨?_, ?_, ?_, ?_, ?_, ?_, ?_, ?_, ?_, ?_⟩
        · simp only [nsub] at h1 ⊢
          simp only [hp0] at h1
          simp at h1 ⊢
          exact h1
        · simp [hnb1]
        · simp [hnb1]
        · intro _
          rfl
        · intro hb
          exact h5 hb
        · simp only [nsub]
          simp only [hp0] at h6
          simpa using h6
        · exact h7
        · simp
        · intro hb _
          exact h9 hb (by omega)
        · simp
    · by_cases hp1 : s.ta.pc = 1
      · rw [if_neg hp0, if_pos hp1]
        have hnb1 : ¬ s.tb.pc = 1 := fun hb => h3 ⟨hp1, hb⟩
        have hsaved : s.ta.saved = s.chain := h4 hp1
        have h1x : s.chain = n0 + (if s.tb.pc = 2 then 1 else 0) := by
          simp only [nsub, hp1] at h1
          simpa using h1
        refine ⟨?_, ?_, ?_, ?_, ?_, ?_, ?_, ?_, ?_, ?_⟩
        · simp only [nsub]
          simp only [h1x]
          simp
          omega
        · simp [hnb1]
        · simp [hnb1]
        · simp
        · intro hb
          exact absurd hb hnb1
        · simp
        · exact h7
        · intro _ hb2
          show s.ta.saved = n0
          have hb2x : ¬ s.tb.pc = 2 := hb2
          rw [if_neg hb2x] at h1x
          omega
        · intro _ hcontra
          exact absurd rfl hcontra
        · intro _ hb2
          show s.ta.saved ≠ s.tb.saved
          have hb2x : s.tb.pc = 2 := hb2
          have htb : s.tb.saved = n0 := h9 hb2x (by omega)
          rw [if_pos hb2x] at h1x
          omega
      · rw [if_neg hp0, if_neg hp1]
        exact ⟨h1, h2, h3, h4, h5, h6, h7, h8, h9, h10⟩
  | b =>
    simp only [sendStep]
    by_cases hp0 : s.tb.pc = 0
    · rw [if_pos hp0]
      by_cases hl : s.locked = true
      · rw [if_pos hl]
        exact ⟨h1, h2, h3, h4, h5, h6, h7, h8, h9, h10⟩
      · rw [if_neg hl]
        have hna1 : ¬ s.ta.pc = 1 := fun ha => hl (h2.mpr (Or.inl ha))
        refine ⟨?_, ?_, ?_, ?_, ?_, ?_, ?_, ?_, ?_, ?_⟩
        · simp only [nsub] at h1 ⊢
          simp only [hp0] at h1
          simp at h1 ⊢
          exact h1
        · simp [hna1]
        · simp [hna1]
        · intro ha
          exact h4 ha
        · intro _
          rfl
        · exact h6
        · simp only [nsub]
          simp only [hp0] at h7
          simpa using h7
        · intro ha _
          exact h8 ha (by omega)
        · simp
        · simp
    · by_cases hp1 : s.tb.pc = 1
      · rw [if_neg hp0, if_pos hp1]
        have hna1 : ¬ s.ta.pc = 1 := fun ha => h3 ⟨ha, hp1⟩
        have hsaved : s.tb.saved = s.chain := h5 hp1
        have h1x : s.chain = n0 + (if s.ta.pc = 2 then 1 else 0) := by
          simp only [nsub, hp1] at h1
          simpa using h1
        refine ⟨?_, ?_, ?_, ?_, ?_, ?_, ?_, ?_, ?_, ?_⟩
        · simp only [nsub]
          simp only [h1x]
          simp
          omega
        · simp [hna1]
        · simp [hna1]
        · intro ha
          exact absurd ha hna1
        · simp
        · exact h6
        · simp
        · intro ha hcontra
          exact absurd rfl hcontra
        · intro _ ha2
          show s.tb.saved = n0
          have ha2x : ¬ s.ta.pc = 2 := ha2
          rw [if_neg ha2x] at h1x
          omega
        · intro ha2 _
          show s.ta.saved ≠ s.tb.saved
          have ha2x : s.ta.pc = 2 := ha2
          have hta : s.ta.saved = n0 := h8 ha2x (by omega)
          rw [if_pos ha2x] at h1x
          omega
      · rw [if_neg hp0, if_neg hp1]
        exact ⟨h1, h2, h3, h4, h5, h6, h7, h8, h9, h10⟩

theorem sendStart_inv (n0 : Nat) : SendInv n0 (sendStart n0) := by
  refine ⟨by simp [sendStart, nsub], ?_, ?_, ?_, ?_, ?_, ?_, ?_, ?_, ?_⟩ <;>
    simp [sendStart, nsub]

theorem sendFoldl_inv (n0 : Nat) : ∀ (sched : List Tid) (s : SendState), SendInv n0 s →
    SendInv n0 (List.foldl sendStep s sched) := by
  intro sched
  induction sched with
  | nil => intro s hs; exact hs
  | cons w rest ih => intro s hs; exact ih (sendStep s w) (sendStep_inv n0 s w hs)

theorem sendRun_inv (n0 : Nat) (sched : List Tid) : SendInv n0 (sendRun n0 sched) :=
  sendFoldl_inv n0 sched (sendStart n0) (sendStart_inv n0)

mutual
theorem shape_stringify : ∀ v : PyVal, shape (stringify v) = shape v
  | PyVal.num _ => rfl
  | PyVal.str _ => rfl
  | PyVal.lst xs => congrArg Shape.nodeS (shapeL_stringifyL xs)
theorem shapeL_stringifyL : ∀ xs : PyList, shapeL (stringifyL xs) = shapeL xs
  | PyList.nil => rfl
  | PyList.cons x xs => congrArg₂ ShapeL.consS (shape_stringify x) (shapeL_stringifyL xs)
end

mutual
theorem scalars_stringify : ∀ v : PyVal,
    scalars (stringify v) = (scalars v).map (fun x => PyVal.str (pyStr x))
  | PyVal.num _ => rfl
  | PyVal.str _ => rfl
  | PyVal.lst xs => scalarsL_stringifyL xs
theorem scalarsL_stringifyL : ∀ xs : PyList,
    scalarsL (stringifyL xs) = (scalarsL xs).map (fun x => PyVal.str (pyStr x))
  | PyList.nil => rfl
  | PyList.cons x xs => by
    show scalars (stringify x) ++ scalarsL (stringifyL xs) =
      (scalars x ++ scalarsL xs).map (fun x => PyVal.str (pyStr x))
    rw [List.map_append, scalars_stringify x, scalarsL_stringifyL xs]
end

/- ## Claim theorems -/

/-- Claim C1: every executor failure raised during the dispatch step of
`call_or_invoke` is intercepted: if its message contains the missing/zero
max-fee substring, exactly one guided remediation log line is emitted and the
function returns nil; any other failure logs the raw error and returns nil;
in no case does an executor failure propagate to the caller (the result is
always on the ok side, with a singleton log list). -/
theorem coi_executor_failure_swallowed
    (env : Env) (registry : List Record) (contract : ContractRef) (ty network : String)
    (qf : Option QueryFlag) (wm : Option WatchMode) (address abi e : String)
    (hres : resolveContract registry network contract = Except.ok (address, abi))
    (hexec : env.exec address abi = Except.error e) :
    call_or_invoke env registry contract ty network qf wm =
      Except.ok (none, [if strContains e MAX_FEE_SUBSTR then MAX_FEE_MSG else e]) := by
  simp only [call_or_invoke, hres, hexec]
  by_cases hc : strContains e MAX_FEE_SUBSTR = true
  · simp [hc]
  · simp [hc]

/-- Witness for C1: a concrete executor failure "boom" is swallowed, with the
raw error as the single log line. -/
theorem coi_executor_failure_swallowed_w :
    call_or_invoke envBoom regOne (ContractRef.ident ("contract")) ("invoke") ("goerli")
      none none =
      Except.ok (none, [if strContains ("boom") MAX_FEE_SUBSTR then MAX_FEE_MSG else ("boom")]) :=
  coi_executor_failure_swallowed envBoom regOne (ContractRef.ident ("contract")) ("invoke")
    ("goerli") none none ("0x1") ("abi") ("boom") rfl rfl

/-- Claim C2: the post-invoke watch path of `call_or_invoke` is taken only for
kind invoke with non-empty output, unset query flag and set watch mode; there
the transaction hash extracted by the fixed pattern, when found, is handed to
the status tracker and the tracker result is returned instead of the raw
output; in every other case the raw output is returned unchanged. -/
theorem coi_watch_path
    (env : Env) (registry : List Record) (contract : ContractRef) (network : String)
    (qf : Option QueryFlag) (wm : Option WatchMode) (address abi output : String)
    (hres : resolveContract registry network contract = Except.ok (address, abi))
    (hexec : env.exec address abi = Except.ok output) :
    (∀ hh r, output ≠ "" → qf = none → wm ≠ none →
        get_transaction_hash output = some hh → env.statusFn (some hh) = Except.ok r →
        call_or_invoke env registry contract ("invoke") network qf wm =
          Except.ok (some r, [output])) ∧
    (call_or_invoke env registry contract ("call") network qf wm =
        Except.ok (some output, [])) ∧
    (output = "" → call_or_invoke env registry contract ("invoke") network qf wm =
        Except.ok (some output, [])) ∧
    (output ≠ "" → (qf ≠ none ∨ wm = none) →
        call_or_invoke env registry contract ("invoke") network qf wm =
          Except.ok (some output, [output])) := by
  refine ⟨?_, ?_, ?_, ?_⟩
  · intro hh r ho hqf hwm hfound hst
    simp only [call_or_invoke, hres, hexec]
    rw [if_pos ⟨by decide, ho⟩, if_pos ⟨hqf, hwm⟩, hfound, hst]
  · simp only [call_or_invoke, hres, hexec]
    rw [if_neg (fun hcontra => hcontra.1 rfl)]
  · intro ho
    simp only [call_or_invoke, hres, hexec]
    rw [if_neg (fun hcontra => hcontra.2 ho)]
  · intro ho hd
    simp only [call_or_invoke, hres, hexec]
    rw [if_pos ⟨by decide, ho⟩]
    rcases hd with h | h
    · rw [if_neg (fun hcontra => h hcontra.1)]
    · rw [if_neg (fun hcontra => hcontra.2 h)]

/-- Witness for C2: a concrete invoke whose output carries hash 0xabc, with
watch mode set, returns the tracker result. -/
theorem coi_watch_path_w :
    call_or_invoke envWatch regOne (ContractRef.ident ("contract")) ("invoke") ("goerli")
      none (some WatchMode.track) =
      Except.ok (some ("tracked"), [("Transaction hash: 0xabc")]) :=
  (coi_watch_path envWatch regOne (ContractRef.ident ("contract")) ("goerli") none
      (some WatchMode.track) ("0x1") ("abi") ("Transaction hash: 0xabc") rfl rfl).1
    ("0xabc") ("tracked") (by decide) rfl (by decide) (by decide) rfl

/-- Claim C3 (code bug): the dispatcher swallows a generic executor failure
and returns nil as designed, and the `call` command then exits normally, but
the `invoke` command unpacks the nil return as `address, tx_hash` and raises
a TypeError to the outer CLI, contradicting the never-raises contract. -/
theorem cli_invoke_unpack_bug :
    (call_or_invoke envBoom regOne (ContractRef.ident ("contract")) ("invoke") ("goerli")
        none none = Except.ok (none, [("boom")])) ∧
    (cli_invoke envBoom regOne ("contract") ("goerli") =
        Except.error ("TypeError: cannot unpack non-iterable NoneType object")) ∧
    (cli_call envBoom regOne ("contract") ("goerli") = Except.ok [("boom"), ("None")]) :=
  ⟨rfl, rfl, rfl⟩

/-- Claim C4: resolution in `call_or_invoke` uses an Account handle's address
and abi directly, otherwise takes the first match of the registry load, and
when no match exists the resolution failure propagates out of the dispatcher
and out of both CLI commands instead of being swallowed. -/
theorem coi_resolution
    (env : Env) (registry : List Record) (name network addr abiPath ty : String)
    (qf : Option QueryFlag) (wm : Option WatchMode) :
    (resolveContract registry network (ContractRef.acct addr abiPath) =
        Except.ok (addr, abiPath)) ∧
    (∀ x rest, load registry name network = x :: rest →
        resolveContract registry network (ContractRef.ident name) = Except.ok x) ∧
    (load registry name network = [] →
        call_or_invoke env registry (ContractRef.ident name) ty network qf wm =
          Except.error ("StopIteration")) ∧
    (load registry name network = [] →
        cli_call env registry name network = Except.error ("StopIteration")) ∧
    (load registry name network = [] →
        cli_invoke env registry name network = Except.error ("StopIteration")) := by
  refine ⟨rfl, ?_, ?_, ?_, ?_⟩
  · intro x rest h
    simp [resolveContract, h]
  · intro h
    simp [call_or_invoke, resolveContract, h]
  · intro h
    simp [cli_call, call_or_invoke, resolveContract, h]
  · intro h
    simp [cli_invoke, call_or_invoke, resolveContract, h]

/-- Witness for C4: with an empty registry, the resolution failure propagates
out of the dispatcher. -/
theorem coi_resolution_w :
    call_or_invoke envBoom [] (ContractRef.ident ("nothere")) ("invoke") ("goerli") none none =
      Except.error ("StopIteration") :=
  (coi_resolution envBoom [] ("nothere") ("goerli") ("0x1") ("abi") ("invoke") none none).2.2.1
    rfl

/-- Claim C5: `submitTransaction` returns a success-coded response unchanged;
any other response fails with a message carrying the raw body, and for the
body with code "test" the message is exactly the text "Transaction failed
because:" followed by a newline, the raw body, and a period. -/
theorem gateway_response_classification (r : GatewayResponse) :
    (respCode r = some TRANSACTION_RECEIVED → get_gateway_response r = Except.ok r) ∧
    (respCode r ≠ some TRANSACTION_RECEIVED →
        get_gateway_response r =
          Except.error ("Transaction failed because:\n" ++ pyDictRepr r ++ ".")) ∧
    (get_gateway_response ⟨[("code", "test")]⟩ =
        Except.error ("Transaction failed because:\n\x7b\x27code\x27: \x27test\x27\x7d.")) := by
  refine ⟨?_, ?_, rfl⟩
  · intro h
    simp [get_gateway_response, h]
  · intro h
    simp [get_gateway_response, h]

/-- Witness for C5: a success-coded response is returned unchanged. -/
theorem gateway_response_classification_w :
    get_gateway_response ⟨[("code", TRANSACTION_RECEIVED)]⟩ =
      Except.ok ⟨[("code", TRANSACTION_RECEIVED)]⟩ :=
  (gateway_response_classification ⟨[("code", TRANSACTION_RECEIVED)]⟩).1 rfl

/-- Claim C6: for a feeder read query that completes (success-coded response)
carrying a result field X, `queryFeeder` returns exactly X, the result field
rather than the whole response; in particular the test vector with result
"test" returns "test". -/
theorem feeder_response_result (r : GatewayResponse) (x : String) :
    (respCode r = some TRANSACTION_RECEIVED → respResult r = some x →
        get_feeder_response r = Except.ok x) ∧
    (get_feeder_response ⟨[("code", TRANSACTION_RECEIVED), ("result", "test")]⟩ =
        Except.ok ("test")) := by
  refine ⟨?_, rfl⟩
  · intro h1 h2
    simp [get_feeder_response, h1, h2]

/-- Witness for C6: the TX_RECEIVED test vector yields its result field. -/
theorem feeder_response_result_w :
    get_feeder_response ⟨[("code", TRANSACTION_RECEIVED), ("result", "test")]⟩ =
      Except.ok ("test") :=
  (feeder_response_result ⟨[("code", TRANSACTION_RECEIVED), ("result", "test")]⟩
    ("test")).1 rfl rfl

/-- Claim C7: `stringify` preserves the nesting structure of every nested
sequence, converts every scalar leaf to its string form, and satisfies the
four concrete test vectors from tests/test_common.py. -/
theorem stringify_spec :
    (∀ v, shape (stringify v) = shape v) ∧
    (∀ v, scalars (stringify v) = (scalars v).map (fun x => PyVal.str (pyStr x))) ∧
    (stringify (pl []) = pl []) ∧
    (stringify (pl [pl [PyVal.num 1, PyVal.num 2, PyVal.num 3]]) =
        pl [pl [PyVal.str ("1"), PyVal.str ("2"), PyVal.str ("3")]]) ∧
    (stringify (pl [pl [PyVal.num 1, PyVal.num 2, PyVal.num 3,
        pl [PyVal.num 4, PyVal.num 5, PyVal.num 6]]]) =
        pl [pl [PyVal.str ("1"), PyVal.str ("2"), PyVal.str ("3"),
          pl [PyVal.str ("4"), PyVal.str ("5"), PyVal.str ("6")]]]) ∧
    (stringify (pl [pl [PyVal.num 1, PyVal.num 2, PyVal.num 3,
        pl [PyVal.num 4, PyVal.num 5, PyVal.num 6,
          pl [PyVal.num 7, PyVal.num 8, PyVal.num 9]]]]) =
        pl [pl [PyVal.str ("1"), PyVal.str ("2"), PyVal.str ("3"),
          pl [PyVal.str ("4"), PyVal.str ("5"), PyVal.str ("6"),
            pl [PyVal.str ("7"), PyVal.str ("8"), PyVal.str ("9")]]]]) :=
  ⟨shape_stringify, scalars_stringify, rfl, rfl, rfl, rfl⟩

/-- Claim C8: in every interleaving of two `send()` invocations on the same
Account instance without explicit nonces, guarded by the per-Account mutex
around the nonce-fetch-and-submit sequence, the two submitted transactions
never carry the same nonce. -/
theorem send_nonce_serialization (n0 : Nat) (sched : List Tid) (x y : Nat)
    (hx : (sendRun n0 sched).subA = some x) (hy : (sendRun n0 sched).subB = some y) :
    x ≠ y := by
  obtain ⟨h1, h2, h3, h4, h5, h6, h7, h8, h9, h10⟩ := sendRun_inv n0 sched
  by_cases ha : (sendRun n0 sched).ta.pc = 2
  · by_cases hb : (sendRun n0 sched).tb.pc = 2
    · rw [h6, if_pos ha] at hx
      rw [h7, if_pos hb] at hy
      injection hx with hx
      injection hy with hy
      subst hx
      subst hy
      exact h10 ha hb
    · rw [h7, if_neg hb] at hy
      exact Option.noConfusion hy
  · rw [h6, if_neg ha] at hx
    exact Option.noConfusion hx

/-- Witness for C8: the fully serialized schedule from nonce 0 submits
nonces 0 and 1, which are distinct. -/
theorem send_nonce_serialization_w :
    (sendRun 0 [Tid.a, Tid.a, Tid.b, Tid.b]).subA = some 0 ∧
    (sendRun 0 [Tid.a, Tid.a, Tid.b, Tid.b]).subB = some 1 ∧ (0 : Nat) ≠ 1 :=
  ⟨rfl, rfl, send_nonce_serialization 0 [Tid.a, Tid.a, Tid.b, Tid.b] 0 1 rfl rfl⟩

/-- Claim C9: `_validate_network` returns "goerli" whenever the value contains
"goerli" or "testnet"; otherwise "localhost" whenever it contains "localhost"
or "127.0.0.1"; otherwise the value unchanged when it is one of the accepted
networks; and for every other value it raises (returns none) instead. -/
theorem validate_network_spec (value : String) :
    ((strContains value ("goerli") || strContains value ("testnet")) = true →
        validate_network value = some ("goerli")) ∧
    ((strContains value ("goerli") || strContains value ("testnet")) = false →
      (strContains value ("localhost") || strContains value ("127.0.0.1")) = true →
        validate_network value = some ("localhost")) ∧
    ((strContains value ("goerli") || strContains value ("testnet")) = false →
      (strContains value ("localhost") || strContains value ("127.0.0.1")) = false →
      value ∈ NETWORKS → validate_network value = some value) ∧
    ((strContains value ("goerli") || strContains value ("testnet")) = false →
      (strContains value ("localhost") || strContains value ("127.0.0.1")) = false →
      value ∉ NETWORKS → validate_network value = none) := by
  refine ⟨?_, ?_, ?_, ?_⟩
  · intro h1
    simp [validate_network, h1]
  · intro h1 h2
    simp [validate_network, h1, h2]
  · intro h1 h2 h3
    simp [validate_network, h1, h2, h3]
  · intro h1 h2 h3
    simp [validate_network, h1, h2, h3]

/-- Witness for C9: one concrete value through each of the four branches. -/
theorem validate_network_spec_w :
    validate_network ("goerli-alpha") = some ("goerli") ∧
    validate_network ("127.0.0.1:5050") = some ("localhost") ∧
    validate_network ("mainnet") = some ("mainnet") ∧
    validate_network ("foo") = none :=
  ⟨(validate_network_spec ("goerli-alpha")).1 (by decide),
   (validate_network_spec ("127.0.0.1:5050")).2.1 (by decide) (by decide),
   (validate_network_spec ("mainnet")).2.2.1 (by decide) (by decide) (by decide),
   (validate_network_spec ("foo")).2.2.2 (by decide) (by decide) (by decide)⟩

/-- Counterexample for claim C10 as stated: Python `\d` matches every
Unicode decimal digit, so on an output whose hash is written with the
Arabic-Indic digit three (U+0663, a category Nd character) the source
regex extracts the substring "0x٣", which is not of the form 0x followed
by lowercase hexadecimal digits (its third character fails the ASCII
class), so the claimed alternative (first such substring, or None when
none exists) is violated at this input. -/
theorem transaction_hash_extraction_cex :
    get_transaction_hash ("Transaction hash: 0x٣") = some ("0x٣") ∧
    String.toList ("0x٣") = ['0', 'x', '٣'] ∧
    isAsciiHexLower ('٣') = false :=
  ⟨by decide, by decide, by decide⟩

/-- Claim C10 (amended): `_get_transaction_hash` is total over strings and
returns the captured group of the first position carrying the literal text
followed by a non-empty run of at most 64 characters of the class `[\da-f]`,
that is, Unicode decimal digits or lowercase letters a to f (greedy: maximal
unless 64 were taken), or none when no such occurrence exists; uppercase hex
digits are not extracted. -/
theorem transaction_hash_extraction (s : String) :
    (∀ h, get_transaction_hash s = some h →
        ∃ i digits, h = String.mk ('0' :: 'x' :: digits) ∧
          HashOccurrence (s.toList) i digits ∧
          ∀ j d, j < i → ¬ HashOccurrence (s.toList) j d) ∧
    (get_transaction_hash s = none → ∀ i d, ¬ HashOccurrence (s.toList) i d) ∧
    (get_transaction_hash ("Transaction hash: 0xABCDEF") = none) := by
  refine ⟨?_, ?_, by decide⟩
  · intro h hsome
    unfold get_transaction_hash at hsome
    cases hsearch : searchHash s.toList with
    | none =>
      rw [hsearch] at hsome
      exact Option.noConfusion hsome
    | some cs =>
      rw [hsearch] at hsome
      injection hsome with hsome
      obtain ⟨i, hi, hj⟩ := searchHash_some s.toList cs hsearch
      obtain ⟨digits, hcs, hspec⟩ := (matchHashAt_some_iff _ cs).mp hi
      refine ⟨i, digits, ?_, hspec, ?_⟩
      · rw [← hsome, hcs]
      · intro j d hji hocc
        exact (matchHashAt_none_iff (s.toList.drop j)).mp (hj j hji) d hocc
  · intro hnone i d hocc
    unfold get_transaction_hash at hnone
    cases hsearch : searchHash s.toList with
    | some cs =>
      rw [hsearch] at hnone
      exact Option.noConfusion hnone
    | none =>
      exact (matchHashAt_none_iff _).mp (searchHash_none s.toList hsearch i) d hocc

/-- Witness for C10: the concrete input with hash 0xab yields an occurrence
at the first position. -/
theorem transaction_hash_extraction_w :
    ∃ i digits, ("0xab") = String.mk ('0' :: 'x' :: digits) ∧
      HashOccurrence (String.toList ("Transaction hash: 0xab")) i digits ∧
      ∀ j d, j < i → ¬ HashOccurrence (String.toList ("Transaction hash: 0xab")) j d :=
  (transaction_hash_extraction ("Transaction hash: 0xab")).1 ("0xab") (by decide)
